import Mathlib

/-!
Verification development for the grunt-imageoptim plugin
(src/tasks/imageoptim.js).  The stateful parts of the task are shallowly
embedded: the file system is an association list from path to byte
content, the external MD5 digest primitive of the crypto library is an
opaque parameter (a function from byte lists to hex strings), and the
side-effecting phases of processFiles are explicit state-passing
functions.  Subprocess launches are reified as an Invocation value, and
the settling of the deferred promise as a Settled value; a thrown
exception is modelled as Option.none.
-/

namespace GruntImageOptim

/-- Byte content of a file: fs.readSync bytes, modelled as a list of Nat. -/
abbrev Bytes := List Nat

/-- The file system visible to the task: path to byte content.  Later
entries are shadowed by earlier ones via alookup, so writing is consing. -/
abbrev FS := List (String × Bytes)

/-- First-match association lookup, the semantics of reading a path or a
JavaScript object property. -/
def alookup {β : Type} (k : String) : List (String × β) → Option β
  | [] => none
  | (q, v) :: rest => if k = q then some v else alookup k rest

/-- Read a file.  In the source a missing file makes fs.openSync throw;
the model totalises with empty content, and the theorems about the cache
only ever read files whose presence is a hypothesis. -/
def readFS (fs : FS) (p : String) : Bytes :=
  (alookup p fs).getD []

/-- Write (or create) a file, the effect of fse.copySync at its destination. -/
def writeFS (fs : FS) (p : String) (b : Bytes) : FS :=
  (p, b) :: fs

/-- Model of path.join for the cache entry path: cache_dir/name.
Normalisation of separators is not modelled. -/
def pathJoin (a b : String) : String :=
  a ++ "/" ++ b

/-- Decidable character-list test: the first list is an initial segment
of the second. -/
def startsWithList : List Char → List Char → Bool
  | [], _ => true
  | _ :: _, [] => false
  | a :: as, b :: bs => a = b && startsWithList as bs

/-- Decidable test that path p lies under directory cd, used to state
that candidate files are not themselves cache entries. -/
def underDir (cd p : String) : Bool :=
  startsWithList (cd ++ "/").data p.data

/-- Fixed read buffer size of md5FileSync (line 52 of the source). -/
def BUFFER_SIZE : Nat := 8192

/-- The byte stream absorbed by the do-while loop of md5FileSync
(lines 62 to 65): each fs.readSync returns min BUFFER_SIZE remaining
bytes, hash.update absorbs the slice of that length, and the loop
repeats while a full buffer was read.  A file whose size is an exact
multiple of BUFFER_SIZE gets one extra zero-length read. -/
def absorbChunks (rest : Bytes) : Bytes :=
  if h : (rest.take BUFFER_SIZE).length = BUFFER_SIZE then
    rest.take BUFFER_SIZE ++ absorbChunks (rest.drop BUFFER_SIZE)
  else
    rest.take BUFFER_SIZE
termination_by rest.length
decreasing_by
  simp only [List.length_take, List.length_drop, BUFFER_SIZE] at h ⊢
  omega

/-- md5FileSync (lines 54 to 71): digest of the chunk-wise absorbed
content, with the digest primitive of the crypto library abstracted as h. -/
def md5FileSync (h : Bytes → String) (content : Bytes) : String :=
  h (absorbChunks content)

/-- Modelled from the spec words for the refinement claim C6: the MD5
digest of the entire byte content computed in one pass. -/
def md5Whole (h : Bytes → String) (content : Bytes) : String :=
  h content

/-- Task options after the task.options defaults (lines 331 to 336),
together with the cliPath threaded by processBatch. -/
structure Opts where
  jpegMini : Bool
  imageAlpha : Bool
  quitAfter : Bool
  cliPath : String
  cache : Option String
deriving DecidableEq

/-- getCliFlags (lines 175 to 187). -/
def getCliFlags (opts : Opts) : List String :=
  (if opts.quitAfter then ["--quit"] else []) ++
  (if opts.imageAlpha then ["--image-alpha"] else []) ++
  (if opts.jpegMini then ["--jpeg-mini"] else [])

/-- ASCII fragment of the JavaScript regular expression class backslash-s. -/
def jsWhitespaceChar (c : Char) : Bool :=
  c = ' ' || c = '\t' || c = '\n' || c = '\r' || c = '\x0b' || c = '\x0c'

/-- directory.replace of backslash-s by an escaped space (line 118). -/
def escapeWhitespace (s : String) : String :=
  String.mk (s.data.foldr
    (fun c acc => if jsWhitespaceChar c then '\\' :: ' ' :: acc else c :: acc) [])

/-- The spawned binary name (lines 114 and 230). -/
def imageOptimBin : String := "./imageOptim"

/-- getCommandByDirectory (lines 113 to 119). -/
def getCommandByDirectory (directory : String) (opts : Opts) : String :=
  imageOptimBin
    ++ (if opts.quitAfter then " --quit" else "")
    ++ (if opts.imageAlpha then " --image-alpha" else "")
    ++ (if opts.jpegMini then " --jpeg-mini" else "")
    ++ " --directory " ++ escapeWhitespace directory

/-- A reified subprocess launch: either childProcess.exec of a shell
command string with a working directory (the directory variant, lines
127 to 145), or childProcess.spawn of a binary with an argument vector,
a working directory and data written to standard input (lines 230 and
251 to 252). -/
inductive Invocation where
  | execShell (command : String) (cwd : String)
  | spawnStdin (cmd : String) (args : List String) (cwd : String) (stdinData : String)
deriving DecidableEq

/-- Discriminator for the shell-exec variant. -/
def Invocation.isExecShell : Invocation → Bool
  | Invocation.execShell _ _ => true
  | Invocation.spawnStdin _ _ _ _ => false

/-- executeDirectoryCommand (lines 127 to 145), reduced to the
invocation it performs; its exit handling mirrors onExit below.  This
function is defined in the source but never called by any dispatch path. -/
def executeDirectoryCommand (command cwd : String) : Invocation :=
  Invocation.execShell command cwd

/-- State threaded through the forEach over old_files (lines 212 to
222): the reduced work list being pushed to, the file system, and the
in_cache_path object. -/
structure FilterSt where
  files : List String
  fs : FS
  inCache : List (String × String)
deriving DecidableEq

/-- One iteration of the cache-filter loop body (lines 212 to 222): hash
the current content of the file, record its cache path, then either
restore the cached bytes over the file (hit) or push the file onto the
reduced work list (miss).  The source computes the digest once into a
local; the duplicated pure expression here is identical. -/
def cacheStep (h : Bytes → String) (cd : String) (st : FilterSt) (file : String) : FilterSt :=
  match alookup (pathJoin cd (md5FileSync h (readFS st.fs file))) st.fs with
  | some b => FilterSt.mk st.files ((file, b) :: st.fs)
      ((file, pathJoin cd (md5FileSync h (readFS st.fs file))) :: st.inCache)
  | none => FilterSt.mk (st.files ++ [file]) st.fs
      ((file, pathJoin cd (md5FileSync h (readFS st.fs file))) :: st.inCache)

/-- The whole cache-filter pass of processFiles (lines 209 to 222),
starting from an empty reduced list and an empty in_cache_path object. -/
def cacheFilter (h : Bytes → String) (cd : String) (files : List String) (fs : FS) : FilterSt :=
  files.foldl (cacheStep h cd) (FilterSt.mk [] fs [])

/-- files.join of a newline plus a trailing newline (line 252). -/
def stdinPayload (files : List String) : String :=
  String.intercalate "\n" files ++ "\n"

/-- Outcome of the synchronous part of processFiles: either the
empty-work-list short circuit that resolves the deferred with no
subprocess (lines 224 to 227), or a spawn of the optimizer carrying the
reduced work list, the in_cache_path map and the file system it leaves
behind (lines 230 to 252). -/
inductive ProcPhase1 where
  | shortCircuit (fs : FS)
  | spawn (inv : Invocation) (reduced : List String) (inCache : List (String × String)) (fs : FS)
deriving DecidableEq

/-- processFiles up to the point the deferred promise is returned
(lines 197 to 256), for a given digest primitive h.  With a cache
directory configured the candidate list is filtered through the cache;
without one the spawn happens unconditionally on the original list with
an empty in_cache_path. -/
def processFilesPhase1 (h : Bytes → String) (opts : Opts) (files : List String) (fs : FS) :
    ProcPhase1 :=
  match opts.cache with
  | some cd =>
    if (cacheFilter h cd files fs).files = [] then
      ProcPhase1.shortCircuit (cacheFilter h cd files fs).fs
    else
      ProcPhase1.spawn
        (Invocation.spawnStdin imageOptimBin (getCliFlags opts) opts.cliPath
          (stdinPayload (cacheFilter h cd files fs).files))
        (cacheFilter h cd files fs).files
        (cacheFilter h cd files fs).inCache
        (cacheFilter h cd files fs).fs
  | none =>
    ProcPhase1.spawn
      (Invocation.spawnStdin imageOptimBin (getCliFlags opts) opts.cliPath
        (stdinPayload files))
      files [] fs

/-- The reduced work list the spawned optimizer receives on standard
input; empty when the short circuit fired. -/
def ProcPhase1.workList : ProcPhase1 → List String
  | ProcPhase1.shortCircuit _ => []
  | ProcPhase1.spawn _ r _ _ => r

/-- The in_cache_path map at the time the exit handler is installed. -/
def ProcPhase1.inCacheMap : ProcPhase1 → List (String × String)
  | ProcPhase1.shortCircuit _ => []
  | ProcPhase1.spawn _ _ m _ => m

/-- The file system after the synchronous part of processFiles ran. -/
def ProcPhase1.fsAfter : ProcPhase1 → FS
  | ProcPhase1.shortCircuit fs => fs
  | ProcPhase1.spawn _ _ _ fs => fs

/-- Whether a subprocess was spawned. -/
def ProcPhase1.spawnsProcess : ProcPhase1 → Bool
  | ProcPhase1.shortCircuit _ => false
  | ProcPhase1.spawn _ _ _ _ => true

/-- The invocation performed, if any. -/
def invocationOf : ProcPhase1 → Option Invocation
  | ProcPhase1.shortCircuit _ => none
  | ProcPhase1.spawn inv _ _ _ => some inv

/-- The fixed diagnostic of a failed optimizer run (line 201). -/
def errorMessage : String := "ImageOptim-CLI exited with a failure status"

/-- How the deferred promise of processFiles settles. -/
inductive Settled where
  | resolved (fs : FS)
  | rejected (msg : String) (fs : FS)
deriving DecidableEq

/-- The add-to-cache loop of the success branch of the exit handler
(lines 241 to 244): for each file of the reduced list in order, copySync
the file to its in_cache_path entry.  copySync throws when the
destination is undefined (no map entry) or the source file is missing;
a throw is modelled as none. -/
def runCopies (fs : FS) (mp : List (String × String)) : List String → Option FS
  | [] => some fs
  | f :: rest =>
    match alookup f mp, alookup f fs with
    | some dest, some b => runCopies (writeFS fs dest b) mp rest
    | _, _ => none

/-- The exit handler of processFiles (lines 238 to 249): on exit code 0
run the add-to-cache loop and resolve, otherwise reject with the fixed
diagnostic, writing nothing.  fs is the file system at exit time, after
the external optimizer rewrote the files it was given. -/
def onExit (code : Nat) (reduced : List String) (mp : List (String × String)) (fs : FS) :
    Option Settled :=
  if code = 0 then
    Option.map Settled.resolved (runCopies fs mp reduced)
  else
    some (Settled.rejected errorMessage fs)

/-- getDirFiles inside processDirectories (lines 156 to 161):
readdirSync is the external listing parameter, and each child name is
joined onto the directory. -/
def getDirFiles (listing : String → List String) (dir : String) : List String :=
  (listing dir).map (fun f => pathJoin dir f)

/-- The forEach concat accumulation of processDirectories (lines 162 to 165). -/
def expandDirs (listing : String → List String) (dirs : List String) : List String :=
  dirs.foldl (fun acc dir => acc ++ getDirFiles listing dir) []

/-- processDirectories (lines 155 to 167): expand every directory one
level into its children and hand the merged list to processFiles. -/
def processDirectories (h : Bytes → String) (listing : String → List String)
    (dirs : List String) (opts : Opts) (fs : FS) : ProcPhase1 :=
  processFilesPhase1 h opts (expandDirs listing dirs) fs

/-- The two batch kinds of processBatch (line 312 filters by fileType). -/
inductive FType where
  | file
  | dir
deriving DecidableEq

/-- The processor selection of processBatch (line 313): the dir variant
is processDirectories, the file variant is processFiles. -/
def dispatchBatch (h : Bytes → String) (listing : String → List String) (ft : FType)
    (opts : Opts) (files : List String) (fs : FS) : ProcPhase1 :=
  match ft with
  | FType.dir => processDirectories h listing files opts fs
  | FType.file => processFilesPhase1 h opts files fs

/-- A batch appended to the promise chain: its kind and its filtered,
absolutised file list.  The option record passed to the processor is
constant across batches and is elided. -/
structure Batch where
  fileType : FType
  files : List String
deriving DecidableEq

/-- isFileType (lines 272 to 277): pick the grunt.file predicate for the
batch kind; the two predicates are external parameters. -/
def batchPred (isFile isDir : String → Bool) : FType → (String → Bool)
  | FType.file => isFile
  | FType.dir => isDir

/-- processBatch (lines 311 to 323) at the level of the promise chain,
which is modelled as the list of batches dispatched so far: filter the
task files by kind, absolutise them, and either return the incoming
chain unchanged (empty batch) or append the batch to the chain. -/
def processBatch (isFile isDir : String → Bool) (toAbs : String → String)
    (ft : FType) (taskFiles : List String) (promise : List Batch) : List Batch :=
  let fl := (taskFiles.filter (batchPred isFile isDir ft)).map toAbs
  if fl.length = 0 then promise else promise ++ [Batch.mk ft fl]

/-- The issue tracker URL (line 40). -/
def issuesPage : String := "https://github.com/JamieMason/grunt-imageoptim/issues/new"

/-- The two fixed candidate install locations (lines 42 to 47), before
path.resolve; resolve is the external path resolution parameter. -/
def cliRelPaths : List String :=
  ["../node_modules/imageoptim-cli/bin", "../../imageoptim-cli/bin"]

/-- The resolved candidate locations. -/
def cliPathsOf (resolve : String → String) : List String :=
  cliRelPaths.map resolve

/-- getPathToCli (lines 284 to 288): first existing candidate location;
indexing an empty filtered array gives undefined, hence none. -/
def getPathToCli (ex : String → Bool) (paths : List String) : Option String :=
  (paths.filter ex).head?

/-- The registerMultiTask callback (lines 325 to 349) up to the shape of
the promise chain it builds: locate the binary, throw if absent, then
per file group append a file batch and a dir batch to the chain. -/
def taskRun (ex : String → Bool) (resolve : String → String)
    (isFile isDir : String → Bool) (toAbs : String → String)
    (groups : List (List String)) : Except String (List Batch) :=
  match getPathToCli ex (cliPathsOf resolve) with
  | none => Except.error ("Unable to locate ImageOptim-CLI. Please raise issue at " ++ issuesPage)
  | some _ => Except.ok (groups.foldl
      (fun promise src =>
        processBatch isFile isDir toAbs FType.dir src
          (processBatch isFile isDir toAbs FType.file src promise)) [])

/-- A constant digest stand-in used by the concrete witnesses. -/
def constHash : Bytes → String := fun _ => "H"

/-- A concrete directory listing used by the concrete witnesses. -/
def constListing : String → List String := fun _ => ["a.png"]

/-- Concrete options with no cache configured. -/
def optsPlain : Opts := Opts.mk false false false "/cli" none

/-- Concrete options with a cache directory configured. -/
def optsCached : Opts := Opts.mk false false false "/cli" (some "/c")

theorem alookup_cons_self {β : Type} (k : String) (v : β) (m : List (String × β)) :
    alookup k ((k, v) :: m) = some v := by
  unfold alookup
  simp

theorem alookup_cons_ne {β : Type} {k q : String} (v : β) (m : List (String × β))
    (h : k ≠ q) : alookup k ((q, v) :: m) = alookup k m := by
  simp [alookup, h]

theorem alookup_write_isSome {k p : String} {fs : FS} (b : Bytes)
    (h : (alookup k fs).isSome = true) : (alookup k (writeFS fs p b)).isSome = true := by
  unfold writeFS
  by_cases hk : k = p
  · subst hk
    rw [alookup_cons_self]
    rfl
  · rw [alookup_cons_ne _ _ hk]
    exact h

theorem string_data_append (s t : String) : (s ++ t).data = s.data ++ t.data := by
  cases s
  cases t
  rfl

theorem startsWithList_append (l r : List Char) : startsWithList l (l ++ r) = true := by
  induction l with
  | nil => rfl
  | cons a as ih => simp [startsWithList, ih]

theorem underDir_pathJoin (cd m : String) : underDir cd (pathJoin cd m) = true := by
  unfold underDir pathJoin
  rw [show cd ++ "/" ++ m = (cd ++ "/") ++ m from rfl, string_data_append]
  exact startsWithList_append _ _

theorem ne_of_underDir_false {cd g : String} (hg : underDir cd g = false) (m : String) :
    g ≠ pathJoin cd m := by
  intro he
  rw [he, underDir_pathJoin] at hg
  exact Bool.noConfusion hg

theorem absorbChunks_eq_self (l : Bytes) : absorbChunks l = l := by
  have H : ∀ n (l : Bytes), l.length ≤ n → absorbChunks l = l := by
    intro n
    induction n with
    | zero =>
      intro l hl
      have hnil : l = [] := List.length_eq_zero.mp (Nat.le_zero.mp hl)
      subst hnil
      rw [absorbChunks]
      simp [BUFFER_SIZE]
    | succ n ih =>
      intro l hl
      rw [absorbChunks]
      split
      next h =>
        have hlt : (l.drop BUFFER_SIZE).length ≤ n := by
          simp only [List.length_take, List.length_drop, BUFFER_SIZE] at h ⊢
          omega
        rw [ih _ hlt, List.take_append_drop]
      next h =>
        have hle : l.length ≤ BUFFER_SIZE := by
          simp only [List.length_take, BUFFER_SIZE] at h ⊢
          omega
        exact List.take_of_length_le hle
  exact H l.length l le_rfl

/-- C6: md5FileSync reads the file in fixed 8192-byte chunks and
finalizes the digest after end of file; the absorbed byte stream equals
the whole content, so for every digest primitive h the result equals the
one-pass digest of the entire content, including when the file size is
an exact multiple of 8192 (where the loop performs one extra zero-length
read). -/
theorem md5FileSync_eq_md5Whole (h : Bytes → String) (c : Bytes) :
    md5FileSync h c = md5Whole h c := by
  unfold md5FileSync md5Whole
  rw [absorbChunks_eq_self]

theorem processFilesPhase1_none (h : Bytes → String) (opts : Opts) (files : List String)
    (fs : FS) (hc : opts.cache = none) :
    processFilesPhase1 h opts files fs =
      ProcPhase1.spawn
        (Invocation.spawnStdin imageOptimBin (getCliFlags opts) opts.cliPath
          (stdinPayload files)) files [] fs := by
  unfold processFilesPhase1
  rw [hc]

theorem processFilesPhase1_some (h : Bytes → String) (opts : Opts) (cd : String)
    (files : List String) (fs : FS) (hc : opts.cache = some cd) :
    processFilesPhase1 h opts files fs =
      if (cacheFilter h cd files fs).files = [] then
        ProcPhase1.shortCircuit (cacheFilter h cd files fs).fs
      else
        ProcPhase1.spawn
          (Invocation.spawnStdin imageOptimBin (getCliFlags opts) opts.cliPath
            (stdinPayload (cacheFilter h cd files fs).files))
          (cacheFilter h cd files fs).files
          (cacheFilter h cd files fs).inCache
          (cacheFilter h cd files fs).fs := by
  unfold processFilesPhase1
  rw [hc]

theorem cacheStep_inCache (h : Bytes → String) (cd : String) (st : FilterSt) (a : String) :
    (cacheStep h cd st a).inCache
      = (a, pathJoin cd (md5FileSync h (readFS st.fs a))) :: st.inCache := by
  unfold cacheStep
  cases alookup (pathJoin cd (md5FileSync h (readFS st.fs a))) st.fs <;> rfl

theorem cacheStep_hit_or_miss (h : Bytes → String) (cd : String) (st : FilterSt)
    (a : String) :
    (∃ b, alookup (pathJoin cd (md5FileSync h (readFS st.fs a))) st.fs = some b ∧
      (cacheStep h cd st a).files = st.files ∧
      (cacheStep h cd st a).fs = (a, b) :: st.fs) ∨
    (alookup (pathJoin cd (md5FileSync h (readFS st.fs a))) st.fs = none ∧
      (cacheStep h cd st a).files = st.files ++ [a] ∧
      (cacheStep h cd st a).fs = st.fs) := by
  unfold cacheStep
  cases hm : alookup (pathJoin cd (md5FileSync h (readFS st.fs a))) st.fs with
  | some b => exact Or.inl ⟨b, rfl, rfl, rfl⟩
  | none => exact Or.inr ⟨rfl, rfl, rfl⟩

theorem foldl_fs_stable (h : Bytes → String) (cd : String) (l : List String)
    (st : FilterSt) (p : String) (hp : p ∉ l) :
    alookup p (l.foldl (cacheStep h cd) st).fs = alookup p st.fs := by
  revert hp
  induction l generalizing st with
  | nil => intro _; rfl
  | cons a as ih =>
    intro hp
    have hpa : p ≠ a := fun hx => hp (hx ▸ List.mem_cons_self a as)
    have hpl : p ∉ as := fun hx => hp (List.mem_cons_of_mem a hx)
    rw [List.foldl_cons, ih _ hpl]
    rcases cacheStep_hit_or_miss h cd st a with ⟨b, _, _, hfs⟩ | ⟨_, _, hfs⟩
    · rw [hfs]
      exact alookup_cons_ne _ _ hpa
    · rw [hfs]

theorem foldl_files_mono (h : Bytes → String) (cd : String) (l : List String)
    (st : FilterSt) (f : String) (hf : f ∈ st.files) :
    f ∈ (l.foldl (cacheStep h cd) st).files := by
  revert hf
  induction l generalizing st with
  | nil => intro hf; exact hf
  | cons a as ih =>
    intro hf
    rw [List.foldl_cons]
    apply ih
    rcases cacheStep_hit_or_miss h cd st a with ⟨b, _, hfiles, _⟩ | ⟨_, hfiles, _⟩
    · rw [hfiles]; exact hf
    · rw [hfiles]; exact List.mem_append_left _ hf

theorem foldl_files_not_mem (h : Bytes → String) (cd : String) (l : List String)
    (st : FilterSt) (f : String) (hf1 : f ∉ st.files) (hf2 : f ∉ l) :
    f ∉ (l.foldl (cacheStep h cd) st).files := by
  revert hf1 hf2
  induction l generalizing st with
  | nil => intro hf1 _; exact hf1
  | cons a as ih =>
    intro hf1 hf2
    have hfa : f ≠ a := fun hx => hf2 (hx ▸ List.mem_cons_self a as)
    have hfl : f ∉ as := fun hx => hf2 (List.mem_cons_of_mem a hx)
    rw [List.foldl_cons]
    apply ih _ ?_ hfl
    rcases cacheStep_hit_or_miss h cd st a with ⟨b, _, hfiles, _⟩ | ⟨_, hfiles, _⟩
    · rw [hfiles]; exact hf1
    · rw [hfiles]
      intro hx
      rcases List.mem_append.mp hx with hx | hx
      · exact hf1 hx
      · exact hfa (List.mem_singleton.mp hx)

theorem foldl_files_subset (h : Bytes → String) (cd : String) (l : List String)
    (st : FilterSt) (g : String) (hg : g ∈ (l.foldl (cacheStep h cd) st).files) :
    g ∈ st.files ∨ g ∈ l := by
  revert hg
  induction l generalizing st with
  | nil => intro hg; exact Or.inl hg
  | cons a as ih =>
    intro hg
    rw [List.foldl_cons] at hg
    rcases ih (cacheStep h cd st a) hg with hx | hx
    · rcases cacheStep_hit_or_miss h cd st a with ⟨b, _, hfiles, _⟩ | ⟨_, hfiles, _⟩
      · rw [hfiles] at hx
        exact Or.inl hx
      · rw [hfiles] at hx
        rcases List.mem_append.mp hx with hx | hx
        · exact Or.inl hx
        · exact Or.inr (by rw [List.mem_singleton.mp hx]; exact List.mem_cons_self a as)
    · exact Or.inr (List.mem_cons_of_mem a hx)

theorem foldl_files_count (h : Bytes → String) (cd : String) (l : List String)
    (st : FilterSt) (f : String) (hf : f ∉ l) :
    ((l.foldl (cacheStep h cd) st).files).count f = st.files.count f := by
  revert hf
  induction l generalizing st with
  | nil => intro _; rfl
  | cons a as ih =>
    intro hf
    have hfa : f ≠ a := fun hx => hf (hx ▸ List.mem_cons_self a as)
    have hfl : f ∉ as := fun hx => hf (List.mem_cons_of_mem a hx)
    rw [List.foldl_cons, ih _ hfl]
    rcases cacheStep_hit_or_miss h cd st a with ⟨b, _, hfiles, _⟩ | ⟨_, hfiles, _⟩
    · rw [hfiles]
    · rw [hfiles, List.count_append]
      have h0 : ([a] : List String).count f = 0 := List.count_eq_zero.mpr (by simp [hfa])
      omega

theorem foldl_inCache_stable (h : Bytes → String) (cd : String) (l : List String)
    (st : FilterSt) (f : String) (hf : f ∉ l) :
    alookup f (l.foldl (cacheStep h cd) st).inCache = alookup f st.inCache := by
  revert hf
  induction l generalizing st with
  | nil => intro _; rfl
  | cons a as ih =>
    intro hf
    have hfa : f ≠ a := fun hx => hf (hx ▸ List.mem_cons_self a as)
    have hfl : f ∉ as := fun hx => hf (List.mem_cons_of_mem a hx)
    rw [List.foldl_cons, ih _ hfl, cacheStep_inCache]
    exact alookup_cons_ne _ _ hfa

theorem foldl_inCache_form (h : Bytes → String) (cd : String) (l : List String)
    (st : FilterSt)
    (hst : ∀ g ∈ st.files, ∃ m, alookup g st.inCache = some (pathJoin cd m)) :
    ∀ g ∈ (l.foldl (cacheStep h cd) st).files,
      ∃ m, alookup g (l.foldl (cacheStep h cd) st).inCache = some (pathJoin cd m) := by
  revert hst
  induction l generalizing st with
  | nil => intro hst; exact hst
  | cons a as ih =>
    intro hst
    rw [List.foldl_cons]
    apply ih
    intro g hg
    rw [cacheStep_inCache]
    by_cases hga : g = a
    · subst hga
      exact ⟨md5FileSync h (readFS st.fs g), alookup_cons_self _ _ _⟩
    · rw [alookup_cons_ne _ _ hga]
      apply hst
      rcases cacheStep_hit_or_miss h cd st a with ⟨b, _, hfiles, _⟩ | ⟨_, hfiles, _⟩
      · rw [hfiles] at hg
        exact hg
      · rw [hfiles] at hg
        rcases List.mem_append.mp hg with hx | hx
        · exact hx
        · exact absurd (List.mem_singleton.mp hx) hga

theorem runCopies_total (mp : List (String × String)) (l : List String) (fs : FS)
    (hl : ∀ g ∈ l, (alookup g mp).isSome = true)
    (hex : ∀ g ∈ l, (alookup g fs).isSome = true) :
    ∃ fs3, runCopies fs mp l = some fs3 := by
  revert hl hex
  induction l generalizing fs with
  | nil => exact fun _ _ => ⟨fs, rfl⟩
  | cons a as ih =>
    intro hl hex
    obtain ⟨d, hd⟩ := Option.isSome_iff_exists.mp (hl a (List.mem_cons_self a as))
    obtain ⟨b, hb⟩ := Option.isSome_iff_exists.mp (hex a (List.mem_cons_self a as))
    have hstep : runCopies fs mp (a :: as) = runCopies (writeFS fs d b) mp as := by
      simp only [runCopies]
      rw [hd, hb]
    rw [hstep]
    exact ih (writeFS fs d b)
      (fun g hg => hl g (List.mem_cons_of_mem a hg))
      (fun g hg => alookup_write_isSome b (hex g (List.mem_cons_of_mem a hg)))

theorem runCopies_stable (mp : List (String × String)) (l : List String) (fs fs3 : FS)
    (p : String) (hrun : runCopies fs mp l = some fs3)
    (hp : ∀ g ∈ l, ∀ d, alookup g mp = some d → p ≠ d) :
    alookup p fs3 = alookup p fs := by
  revert hrun hp
  induction l generalizing fs with
  | nil =>
    intro hrun _
    unfold runCopies at hrun
    injection hrun with hrun
    rw [hrun]
  | cons a as ih =>
    intro hrun hp
    unfold runCopies at hrun
    cases hd : alookup a mp with
    | none =>
      rw [hd] at hrun
      cases hb : alookup a fs <;> rw [hb] at hrun <;> simp at hrun
    | some d =>
      cases hb : alookup a fs with
      | none =>
        rw [hd, hb] at hrun
        simp at hrun
      | some b =>
        rw [hd, hb] at hrun
        have hpd : p ≠ d := hp a (List.mem_cons_self a as) d hd
        have hrec := ih (writeFS fs d b) hrun
          (fun g hg d' hd' => hp g (List.mem_cons_of_mem a hg) d' hd')
        rw [hrec]
        exact alookup_cons_ne _ _ hpd

theorem runCopies_spec (cd : String) (mp : List (String × String)) (l : List String)
    (fs : FS) (f : String)
    (hl : ∀ g ∈ l, ∃ m, alookup g mp = some (pathJoin cd m))
    (hsrc : ∀ g ∈ l, ∀ m, g ≠ pathJoin cd m)
    (hex : ∀ g ∈ l, (alookup g fs).isSome = true)
    (hf : f ∈ l) (hcount : l.count f = 1)
    (hnodup : (l.map (fun g => alookup g mp)).Nodup) :
    ∃ fs3, runCopies fs mp l = some fs3 ∧
      ∀ d, alookup f mp = some d → alookup d fs3 = alookup f fs := by
  revert hl hsrc hex hf hcount hnodup
  induction l generalizing fs with
  | nil => intro _ _ _ hf _ _; exact absurd hf (List.not_mem_nil f)
  | cons x xs ih =>
    intro hl hsrc hex hf hcount hnodup
    obtain ⟨mx, hmx⟩ := hl x (List.mem_cons_self x xs)
    obtain ⟨bx, hbx⟩ := Option.isSome_iff_exists.mp (hex x (List.mem_cons_self x xs))
    have hstep : runCopies fs mp (x :: xs)
        = runCopies (writeFS fs (pathJoin cd mx) bx) mp xs := by
      simp only [runCopies]
      rw [hmx, hbx]
    by_cases hfx : f = x
    · subst hfx
      have hnotin : f ∉ xs := by
        rw [List.count_cons_self] at hcount
        exact List.count_eq_zero.mp (by omega)
      have hl' : ∀ g ∈ xs, (alookup g mp).isSome = true := fun g hg => by
        obtain ⟨m, hm⟩ := hl g (List.mem_cons_of_mem f hg)
        rw [hm]
        rfl
      have hex' : ∀ g ∈ xs, (alookup g (writeFS fs (pathJoin cd mx) bx)).isSome = true :=
        fun g hg => alookup_write_isSome bx (hex g (List.mem_cons_of_mem f hg))
      obtain ⟨fs3, hrun3⟩ := runCopies_total mp xs (writeFS fs (pathJoin cd mx) bx) hl' hex'
      refine ⟨fs3, by rw [hstep]; exact hrun3, ?_⟩
      intro d hd
      rw [hmx] at hd
      injection hd with hd
      subst hd
      have hstab : alookup (pathJoin cd mx) fs3
          = alookup (pathJoin cd mx) (writeFS fs (pathJoin cd mx) bx) := by
        apply runCopies_stable mp xs _ fs3 _ hrun3
        intro g hg d' hd' heq
        have h1 : alookup f mp ∉ xs.map (fun g => alookup g mp) := by
          rw [List.map_cons, List.nodup_cons] at hnodup
          exact hnodup.1
        apply h1
        rw [List.mem_map]
        exact ⟨g, hg, by rw [hd', ← heq]; exact hmx.symm⟩
      rw [hstab]
      rw [show writeFS fs (pathJoin cd mx) bx = (pathJoin cd mx, bx) :: fs from rfl]
      rw [alookup_cons_self, hbx]
    · have hfxs : f ∈ xs := by
        rcases List.mem_cons.mp hf with h1 | h1
        · exact absurd h1 hfx
        · exact h1
      have hcount' : xs.count f = 1 := by
        rw [List.count_cons] at hcount
        have hxf : ¬ (x = f) := fun hx0 => hfx hx0.symm
        simpa [hxf] using hcount
      have hf_pres : alookup f (writeFS fs (pathJoin cd mx) bx) = alookup f fs :=
        alookup_cons_ne _ _ (hsrc f hf mx)
      obtain ⟨fs3, hrun3, hspec3⟩ := ih (writeFS fs (pathJoin cd mx) bx)
        (fun g hg => hl g (List.mem_cons_of_mem x hg))
        (fun g hg => hsrc g (List.mem_cons_of_mem x hg))
        (fun g hg => alookup_write_isSome bx (hex g (List.mem_cons_of_mem x hg)))
        hfxs hcount'
        (by rw [List.map_cons, List.nodup_cons] at hnodup; exact hnodup.2)
      refine ⟨fs3, by rw [hstep]; exact hrun3, ?_⟩
      intro d hd
      rw [hspec3 d hd, hf_pres]

/-- C3: when the optimizer subprocess exits with a non-zero code, the
exit handler rejects the deferred promise with the fixed diagnostic
errorMessage and performs no add-to-cache copies, leaving the file
system exactly as the optimizer left it. -/
theorem onExit_nonzero_rejects (code : Nat) (reduced : List String)
    (mp : List (String × String)) (fs : FS) (hcode : code ≠ 0) :
    onExit code reduced mp fs = some (Settled.rejected errorMessage fs) := by
  unfold onExit
  simp [hcode]

theorem onExit_nonzero_rejects_witness :
    (1 : Nat) ≠ 0 ∧
    onExit 1 ["/a.png"] [("/a.png", "/c/H")] [("/a.png", [1])]
      = some (Settled.rejected errorMessage [("/a.png", [1])]) :=
  ⟨by decide, onExit_nonzero_rejects 1 ["/a.png"] [("/a.png", "/c/H")] [("/a.png", [1])]
    (by decide)⟩

/-- C8: a processBatch call whose filtered file list is empty returns
the incoming promise chain unchanged, so no processor continuation and
no subprocess is attached for that batch. -/
theorem processBatch_skips_empty (isFile isDir : String → Bool) (toAbs : String → String)
    (ft : FType) (taskFiles : List String) (promise : List Batch)
    (hempty : taskFiles.filter (batchPred isFile isDir ft) = []) :
    processBatch isFile isDir toAbs ft taskFiles promise = promise := by
  unfold processBatch
  rw [hempty]
  rfl

theorem processBatch_skips_empty_witness :
    (["x.png"].filter (batchPred (fun _ => false) (fun _ => false) FType.file) = []) ∧
    processBatch (fun _ => false) (fun _ => false) (fun s => s) FType.file ["x.png"]
        [Batch.mk FType.file ["/a.png"]]
      = [Batch.mk FType.file ["/a.png"]] :=
  ⟨by decide, processBatch_skips_empty (fun _ => false) (fun _ => false) (fun s => s)
    FType.file ["x.png"] [Batch.mk FType.file ["/a.png"]] (by decide)⟩

/-- C10: with no cache option configured, processFiles on an empty file
list still spawns the optimizer subprocess, and its standard input
receives a single newline; the no-subprocess short circuit exists only
inside the cache branch. -/
theorem processFiles_empty_no_cache_spawns (h : Bytes → String) (opts : Opts) (fs : FS)
    (hc : opts.cache = none) :
    processFilesPhase1 h opts [] fs =
      ProcPhase1.spawn
        (Invocation.spawnStdin imageOptimBin (getCliFlags opts) opts.cliPath "\n")
        [] [] fs ∧
    (processFilesPhase1 h opts [] fs).spawnsProcess = true := by
  have hsp : stdinPayload ([] : List String) = "\n" := by decide
  have heq := processFilesPhase1_none h opts [] fs hc
  rw [hsp] at heq
  exact ⟨heq, by rw [heq]; rfl⟩

theorem processFiles_empty_no_cache_spawns_witness :
    optsPlain.cache = none ∧
    (processFilesPhase1 constHash optsPlain [] [] =
      ProcPhase1.spawn
        (Invocation.spawnStdin imageOptimBin (getCliFlags optsPlain) optsPlain.cliPath "\n")
        [] [] [] ∧
    (processFilesPhase1 constHash optsPlain [] []).spawnsProcess = true) :=
  ⟨rfl, processFiles_empty_no_cache_spawns constHash optsPlain [] rfl⟩

/-- C9: with no cache option configured and a non-empty file list, the
spawn happens with an empty in_cache_path map, every file of the success
handler copy loop has an undefined destination, and the success branch
of the exit handler aborts on its first copySync (modelled as none):
the add-to-cache loop is not guarded by the cache option. -/
theorem processFiles_no_cache_success_copy_undefined (h : Bytes → String) (opts : Opts)
    (files : List String) (fs fs2 : FS) (hc : opts.cache = none) (hne : files ≠ []) :
    (processFilesPhase1 h opts files fs).workList = files ∧
    (processFilesPhase1 h opts files fs).inCacheMap = [] ∧
    (∀ g ∈ files, alookup g (processFilesPhase1 h opts files fs).inCacheMap = none) ∧
    onExit 0 files [] fs2 = none := by
  rw [processFilesPhase1_none h opts files fs hc]
  refine ⟨rfl, rfl, fun g _ => rfl, ?_⟩
  cases files with
  | nil => exact absurd rfl hne
  | cons a rest =>
    unfold onExit runCopies
    simp [alookup]

theorem processFiles_no_cache_success_copy_undefined_witness :
    optsPlain.cache = none ∧ (["/a.png"] : List String) ≠ [] ∧
    ((processFilesPhase1 constHash optsPlain ["/a.png"] [("/a.png", [1])]).workList
        = ["/a.png"] ∧
    (processFilesPhase1 constHash optsPlain ["/a.png"] [("/a.png", [1])]).inCacheMap = [] ∧
    (∀ g ∈ ["/a.png"],
      alookup g (processFilesPhase1 constHash optsPlain ["/a.png"]
        [("/a.png", [1])]).inCacheMap = none) ∧
    onExit 0 ["/a.png"] [] [("/a.png", [2])] = none) :=
  ⟨rfl, by decide, processFiles_no_cache_success_copy_undefined constHash optsPlain
    ["/a.png"] [("/a.png", [1])] [("/a.png", [2])] rfl (by decide)⟩

/-- C4: with a cache directory configured, if the cache filter leaves an
empty reduced work list then processFiles resolves the deferred promise
at once and no optimizer subprocess is spawned. -/
theorem processFiles_empty_worklist_resolves (h : Bytes → String) (opts : Opts)
    (cd : String) (files : List String) (fs : FS)
    (hc : opts.cache = some cd)
    (hempty : (cacheFilter h cd files fs).files = []) :
    processFilesPhase1 h opts files fs
      = ProcPhase1.shortCircuit (cacheFilter h cd files fs).fs ∧
    (processFilesPhase1 h opts files fs).spawnsProcess = false := by
  have heq := processFilesPhase1_some h opts cd files fs hc
  rw [if_pos hempty] at heq
  exact ⟨heq, by rw [heq]; rfl⟩

theorem processFiles_empty_worklist_resolves_witness :
    optsCached.cache = some "/c" ∧
    (cacheFilter constHash "/c" ["/a"] [("/a", [1]), ("/c/H", [2])]).files = [] ∧
    (processFilesPhase1 constHash optsCached ["/a"] [("/a", [1]), ("/c/H", [2])]
        = ProcPhase1.shortCircuit
            (cacheFilter constHash "/c" ["/a"] [("/a", [1]), ("/c/H", [2])]).fs ∧
    (processFilesPhase1 constHash optsCached ["/a"]
        [("/a", [1]), ("/c/H", [2])]).spawnsProcess = false) :=
  ⟨rfl, by decide, processFiles_empty_worklist_resolves constHash optsCached "/c" ["/a"]
    [("/a", [1]), ("/c/H", [2])] rfl (by decide)⟩

/-- C5 counterexample: a concrete directory batch dispatched through the
dir-variant processor results in the stdin-fed spawn of the file
variant, not a shell exec, and in particular not the shell exec of the
getCommandByDirectory command for that directory, refuting the claim
that directory entries are processed by the --directory shell variant. -/
theorem dirBatch_shell_exec_refuted :
    invocationOf (dispatchBatch constHash constListing FType.dir optsPlain ["/imgs"] [])
      = some (Invocation.spawnStdin imageOptimBin [] "/cli" "/imgs/a.png\n") ∧
    Option.map Invocation.isExecShell
      (invocationOf (dispatchBatch constHash constListing FType.dir optsPlain ["/imgs"] []))
      = some false ∧
    invocationOf (dispatchBatch constHash constListing FType.dir optsPlain ["/imgs"] [])
      ≠ some (Invocation.execShell (getCommandByDirectory "/imgs" optsPlain) "/imgs") := by
  decide

/-- C5 amended: a directory batch is processed by processDirectories,
which expands each directory one level and routes the children through
processFiles, so any subprocess it launches is the stdin-fed spawn of
the optimizer binary with the getCliFlags argument vector; the
shell-exec --directory variant is never invoked from dispatch. -/
theorem dirBatch_uses_stdin_spawn (h : Bytes → String) (listing : String → List String)
    (opts : Opts) (dirs : List String) (fs : FS) (inv : Invocation)
    (hinv : invocationOf (dispatchBatch h listing FType.dir opts dirs fs) = some inv) :
    ∃ s, inv = Invocation.spawnStdin imageOptimBin (getCliFlags opts) opts.cliPath s := by
  unfold dispatchBatch processDirectories at hinv
  cases hc : opts.cache with
  | none =>
    rw [processFilesPhase1_none h opts _ fs hc] at hinv
    simp only [invocationOf, Option.some.injEq] at hinv
    exact ⟨_, hinv.symm⟩
  | some cd =>
    rw [processFilesPhase1_some h opts cd _ fs hc] at hinv
    by_cases he : (cacheFilter h cd (expandDirs listing dirs) fs).files = []
    · rw [if_pos he] at hinv
      exact absurd hinv (by simp [invocationOf])
    · rw [if_neg he] at hinv
      simp only [invocationOf, Option.some.injEq] at hinv
      exact ⟨_, hinv.symm⟩

theorem dirBatch_uses_stdin_spawn_witness :
    invocationOf (dispatchBatch constHash constListing FType.dir optsPlain ["/imgs"] [])
      = some (Invocation.spawnStdin imageOptimBin [] "/cli" "/imgs/a.png\n") ∧
    ∃ s, Invocation.spawnStdin imageOptimBin [] "/cli" "/imgs/a.png\n"
      = Invocation.spawnStdin imageOptimBin (getCliFlags optsPlain) optsPlain.cliPath s :=
  ⟨by decide, dirBatch_uses_stdin_spawn constHash constListing optsPlain ["/imgs"] []
    (Invocation.spawnStdin imageOptimBin [] "/cli" "/imgs/a.png\n") (by decide)⟩

/-- C7: when the optimizer binary exists at none of the fixed candidate
install locations, the task callback fails at once with the diagnostic
naming the issue tracker, before any batch is appended to the promise
chain and before any subprocess is started. -/
theorem taskRun_binary_missing (ex : String → Bool) (resolve : String → String)
    (isFile isDir : String → Bool) (toAbs : String → String)
    (groups : List (List String))
    (hex : ∀ p ∈ cliPathsOf resolve, ex p = false) :
    taskRun ex resolve isFile isDir toAbs groups
      = Except.error ("Unable to locate ImageOptim-CLI. Please raise issue at "
          ++ issuesPage) := by
  have hfil : (cliPathsOf resolve).filter ex = [] :=
    List.filter_eq_nil_iff.mpr (fun a ha => by simp [hex a ha])
  unfold taskRun getPathToCli
  rw [hfil]
  rfl

theorem taskRun_binary_missing_witness :
    (∀ p ∈ cliPathsOf (fun s => s), (fun _ : String => false) p = false) ∧
    taskRun (fun _ => false) (fun s => s) (fun _ => true) (fun _ => true) (fun s => s)
        [["img.png"]]
      = Except.error ("Unable to locate ImageOptim-CLI. Please raise issue at "
          ++ issuesPage) :=
  ⟨by decide, taskRun_binary_missing (fun _ => false) (fun s => s) (fun _ => true)
    (fun _ => true) (fun s => s) [["img.png"]] (by decide)⟩

/-- C1: with a cache directory configured, a candidate file whose
current-content MD5 names an existing cache entry has its content
overwritten with that cache entry and is excluded from the reduced work
list handed to the optimizer.  Scope hypotheses: the file occurs once in
the candidate list, candidates do not live inside the cache directory,
and all candidates exist. -/
theorem processFiles_cache_hit (h : Bytes → String) (opts : Opts) (cd : String)
    (files : List String) (fs0 : FS) (f : String) (b : Bytes)
    (hc : opts.cache = some cd)
    (hf : f ∈ files) (hcount : files.count f = 1)
    (hnc : ∀ g ∈ files, underDir cd g = false)
    (hexall : ∀ g ∈ files, (alookup g fs0).isSome = true)
    (hhit : alookup (pathJoin cd (md5FileSync h (readFS fs0 f))) fs0 = some b) :
    f ∉ (processFilesPhase1 h opts files fs0).workList ∧
    alookup f (processFilesPhase1 h opts files fs0).fsAfter = some b := by
  obtain ⟨pre, post, hdec⟩ := List.append_of_mem hf
  subst hdec
  have hsplit : pre.count f = 0 ∧ post.count f = 0 := by
    rw [List.count_append, List.count_cons_self] at hcount
    omega
  have hfpre : f ∉ pre := List.count_eq_zero.mp hsplit.1
  have hfpost : f ∉ post := List.count_eq_zero.mp hsplit.2
  have hfold : cacheFilter h cd (pre ++ f :: post) fs0
      = post.foldl (cacheStep h cd)
          (cacheStep h cd (pre.foldl (cacheStep h cd) (FilterSt.mk [] fs0 [])) f) := by
    unfold cacheFilter
    rw [List.foldl_append, List.foldl_cons]
  have hread1 : readFS (pre.foldl (cacheStep h cd) (FilterSt.mk [] fs0 [])).fs f
      = readFS fs0 f := by
    unfold readFS
    rw [foldl_fs_stable h cd pre (FilterSt.mk [] fs0 []) f hfpre]
  have hdest_notin : ∀ m : String, pathJoin cd m ∉ pre := by
    intro m hx
    have hu := hnc (pathJoin cd m) (List.mem_append_left _ hx)
    rw [underDir_pathJoin] at hu
    exact Bool.noConfusion hu
  have hdest1 : alookup (pathJoin cd (md5FileSync h (readFS fs0 f)))
      (pre.foldl (cacheStep h cd) (FilterSt.mk [] fs0 [])).fs = some b := by
    rw [foldl_fs_stable h cd pre (FilterSt.mk [] fs0 []) _ (hdest_notin _)]
    exact hhit
  rcases cacheStep_hit_or_miss h cd (pre.foldl (cacheStep h cd) (FilterSt.mk [] fs0 [])) f
    with ⟨b', hb', hfiles2, hfs2⟩ | ⟨hb', _, _⟩
  · rw [hread1] at hb'
    rw [hdest1] at hb'
    injection hb' with hb'
    subst hb'
    have hnotpre : f ∉ (pre.foldl (cacheStep h cd) (FilterSt.mk [] fs0 [])).files :=
      foldl_files_not_mem h cd pre _ f (List.not_mem_nil f) hfpre
    have hnotfinal : f ∉ (cacheFilter h cd (pre ++ f :: post) fs0).files := by
      rw [hfold]
      apply foldl_files_not_mem h cd post _ f _ hfpost
      rw [hfiles2]
      exact hnotpre
    have hfsfinal : alookup f (cacheFilter h cd (pre ++ f :: post) fs0).fs = some b := by
      rw [hfold, foldl_fs_stable h cd post _ f hfpost, hfs2]
      exact alookup_cons_self _ _ _
    rw [processFilesPhase1_some h opts cd _ fs0 hc]
    by_cases hemp : (cacheFilter h cd (pre ++ f :: post) fs0).files = []
    · rw [if_pos hemp]
      exact ⟨List.not_mem_nil f, hfsfinal⟩
    · rw [if_neg hemp]
      exact ⟨hnotfinal, hfsfinal⟩
  · rw [hread1] at hb'
    rw [hdest1] at hb'
    exact Option.noConfusion hb'

theorem processFiles_cache_hit_witness :
    optsCached.cache = some "/c" ∧
    "/a" ∈ ["/a"] ∧ (["/a"] : List String).count "/a" = 1 ∧
    (∀ g ∈ ["/a"], underDir "/c" g = false) ∧
    (∀ g ∈ ["/a"], (alookup g [("/a", [1]), ("/c/H", [7])]).isSome = true) ∧
    alookup (pathJoin "/c" (md5FileSync constHash (readFS [("/a", [1]), ("/c/H", [7])] "/a")))
        [("/a", [1]), ("/c/H", [7])] = some [7] ∧
    ("/a" ∉ (processFilesPhase1 constHash optsCached ["/a"]
        [("/a", [1]), ("/c/H", [7])]).workList ∧
      alookup "/a" (processFilesPhase1 constHash optsCached ["/a"]
        [("/a", [1]), ("/c/H", [7])]).fsAfter = some [7]) :=
  ⟨rfl, by decide, by decide, by decide, by decide, by decide,
    processFiles_cache_hit constHash optsCached "/c" ["/a"] [("/a", [1]), ("/c/H", [7])]
      "/a" [7] rfl (by decide) (by decide) (by decide) (by decide) (by decide)⟩

/-- C2: with a cache directory configured, a candidate file whose
current-content MD5 has no cache entry is kept on the reduced work list
with its cache path recorded under its pre-optimization checksum, and
after the optimizer exits 0 the add-to-cache loop succeeds and leaves a
cache entry at that checksum path holding the file content as it exists
in the post-optimization file system.  Scope hypotheses: the file occurs
once, candidates do not live inside the cache directory and all exist,
the recorded cache destinations of the reduced list are pairwise
distinct, and the reduced files exist after optimization. -/
theorem processFiles_cache_miss (h : Bytes → String) (opts : Opts) (cd : String)
    (files : List String) (fs0 fs2 : FS) (f : String)
    (hc : opts.cache = some cd)
    (hf : f ∈ files) (hcount : files.count f = 1)
    (hnc : ∀ g ∈ files, underDir cd g = false)
    (hexall : ∀ g ∈ files, (alookup g fs0).isSome = true)
    (hmiss : alookup (pathJoin cd (md5FileSync h (readFS fs0 f))) fs0 = none)
    (hnodup : ((processFilesPhase1 h opts files fs0).workList.map
        (fun g => alookup g (processFilesPhase1 h opts files fs0).inCacheMap)).Nodup)
    (hex2 : ∀ g ∈ (processFilesPhase1 h opts files fs0).workList,
      (alookup g fs2).isSome = true) :
    f ∈ (processFilesPhase1 h opts files fs0).workList ∧
    alookup f (processFilesPhase1 h opts files fs0).inCacheMap
      = some (pathJoin cd (md5FileSync h (readFS fs0 f))) ∧
    ∃ fs3, onExit 0 (processFilesPhase1 h opts files fs0).workList
        (processFilesPhase1 h opts files fs0).inCacheMap fs2
        = some (Settled.resolved fs3) ∧
      alookup (pathJoin cd (md5FileSync h (readFS fs0 f))) fs3 = alookup f fs2 := by
  obtain ⟨pre, post, hdec⟩ := List.append_of_mem hf
  subst hdec
  have hsplit : pre.count f = 0 ∧ post.count f = 0 := by
    rw [List.count_append, List.count_cons_self] at hcount
    omega
  have hfpre : f ∉ pre := List.count_eq_zero.mp hsplit.1
  have hfpost : f ∉ post := List.count_eq_zero.mp hsplit.2
  have hfold : cacheFilter h cd (pre ++ f :: post) fs0
      = post.foldl (cacheStep h cd)
          (cacheStep h cd (pre.foldl (cacheStep h cd) (FilterSt.mk [] fs0 [])) f) := by
    unfold cacheFilter
    rw [List.foldl_append, List.foldl_cons]
  have hread1 : readFS (pre.foldl (cacheStep h cd) (FilterSt.mk [] fs0 [])).fs f
      = readFS fs0 f := by
    unfold readFS
    rw [foldl_fs_stable h cd pre (FilterSt.mk [] fs0 []) f hfpre]
  have hdest_notin : ∀ m : String, pathJoin cd m ∉ pre := by
    intro m hx
    have hu := hnc (pathJoin cd m) (List.mem_append_left _ hx)
    rw [underDir_pathJoin] at hu
    exact Bool.noConfusion hu
  have hdest1 : alookup (pathJoin cd (md5FileSync h (readFS fs0 f)))
      (pre.foldl (cacheStep h cd) (FilterSt.mk [] fs0 [])).fs = none := by
    rw [foldl_fs_stable h cd pre (FilterSt.mk [] fs0 []) _ (hdest_notin _)]
    exact hmiss
  rcases cacheStep_hit_or_miss h cd (pre.foldl (cacheStep h cd) (FilterSt.mk [] fs0 [])) f
    with ⟨b', hb', _, _⟩ | ⟨hb', hfiles2, _⟩
  · rw [hread1] at hb'
    rw [hdest1] at hb'
    exact Option.noConfusion hb'
  · -- membership of f in the final reduced list
    have hmem_final : f ∈ (cacheFilter h cd (pre ++ f :: post) fs0).files := by
      rw [hfold]
      apply foldl_files_mono h cd post _ f
      rw [hfiles2]
      exact List.mem_append_right _ (List.mem_singleton.mpr rfl)
    -- the recorded cache destination of f
    have hinc_final : alookup f (cacheFilter h cd (pre ++ f :: post) fs0).inCache
        = some (pathJoin cd (md5FileSync h (readFS fs0 f))) := by
      rw [hfold, foldl_inCache_stable h cd post _ f hfpost, cacheStep_inCache, hread1]
      exact alookup_cons_self _ _ _
    -- f occurs exactly once on the reduced list
    have hcount_final : (cacheFilter h cd (pre ++ f :: post) fs0).files.count f = 1 := by
      rw [hfold, foldl_files_count h cd post _ f hfpost, hfiles2, List.count_append]
      have hc0 : ((pre.foldl (cacheStep h cd) (FilterSt.mk [] fs0 [])).files).count f = 0 := by
        rw [foldl_files_count h cd pre _ f hfpre]
        rfl
      have hc1 : ([f] : List String).count f = 1 := by simp
      omega
    -- every reduced file has a recorded destination under the cache dir
    have hform : ∀ g ∈ (cacheFilter h cd (pre ++ f :: post) fs0).files,
        ∃ m, alookup g (cacheFilter h cd (pre ++ f :: post) fs0).inCache
          = some (pathJoin cd m) := by
      unfold cacheFilter
      exact foldl_inCache_form h cd _ _ (fun g hg => absurd hg (List.not_mem_nil g))
    -- reduced files are candidates, hence not cache paths
    have hsrc : ∀ g ∈ (cacheFilter h cd (pre ++ f :: post) fs0).files,
        ∀ m, g ≠ pathJoin cd m := by
      intro g hg m
      have hgf : g ∈ pre ++ f :: post := by
        have hsub := foldl_files_subset h cd (pre ++ f :: post) (FilterSt.mk [] fs0 []) g
          (by unfold cacheFilter at hg; exact hg)
        rcases hsub with h0 | h0
        · exact absurd h0 (List.not_mem_nil g)
        · exact h0
      exact ne_of_underDir_false (hnc g hgf) m
    have hne : ¬ (cacheFilter h cd (pre ++ f :: post) fs0).files = [] := by
      intro h0
      rw [h0] at hmem_final
      exact List.not_mem_nil f hmem_final
    rw [processFilesPhase1_some h opts cd _ fs0 hc, if_neg hne] at hnodup hex2 ⊢
    simp only [ProcPhase1.workList, ProcPhase1.inCacheMap] at hnodup hex2 ⊢
    refine ⟨hmem_final, hinc_final, ?_⟩
    obtain ⟨fs3, hrun, hspec⟩ := runCopies_spec cd
      (cacheFilter h cd (pre ++ f :: post) fs0).inCache
      (cacheFilter h cd (pre ++ f :: post) fs0).files fs2 f
      hform hsrc hex2 hmem_final hcount_final hnodup
    refine ⟨fs3, ?_, hspec _ hinc_final⟩
    unfold onExit
    rw [if_pos rfl, hrun]
    rfl

theorem processFiles_cache_miss_witness :
    optsCached.cache = some "/c" ∧
    "/a" ∈ ["/a"] ∧ (["/a"] : List String).count "/a" = 1 ∧
    (∀ g ∈ ["/a"], underDir "/c" g = false) ∧
    (∀ g ∈ ["/a"], (alookup g [("/a", [1])]).isSome = true) ∧
    alookup (pathJoin "/c" (md5FileSync constHash (readFS [("/a", [1])] "/a")))
        [("/a", [1])] = none ∧
    ((processFilesPhase1 constHash optsCached ["/a"] [("/a", [1])]).workList.map
        (fun g => alookup g (processFilesPhase1 constHash optsCached ["/a"]
          [("/a", [1])]).inCacheMap)).Nodup ∧
    (∀ g ∈ (processFilesPhase1 constHash optsCached ["/a"] [("/a", [1])]).workList,
      (alookup g [("/a", [9])]).isSome = true) ∧
    ("/a" ∈ (processFilesPhase1 constHash optsCached ["/a"] [("/a", [1])]).workList ∧
      alookup "/a" (processFilesPhase1 constHash optsCached ["/a"] [("/a", [1])]).inCacheMap
        = some (pathJoin "/c" (md5FileSync constHash (readFS [("/a", [1])] "/a"))) ∧
      ∃ fs3, onExit 0 (processFilesPhase1 constHash optsCached ["/a"] [("/a", [1])]).workList
          (processFilesPhase1 constHash optsCached ["/a"] [("/a", [1])]).inCacheMap
          [("/a", [9])] = some (Settled.resolved fs3) ∧
        alookup (pathJoin "/c" (md5FileSync constHash (readFS [("/a", [1])] "/a"))) fs3
          = alookup "/a" [("/a", [9])]) :=
  ⟨rfl, by decide, by decide, by decide, by decide, by decide, by decide, by decide,
    processFiles_cache_miss constHash optsCached "/c" ["/a"] [("/a", [1])] [("/a", [9])]
      "/a" rfl (by decide) (by decide) (by decide) (by decide) (by decide) (by decide)
      (by decide)⟩

end GruntImageOptim
